import Mathlib

/-!
Verification of `iron-middlefiddle` (src/src/lib.rs).

The crate provides the `middlefiddle!` macro: given a router, a table of
route declarations and a list of middleware declarations, it builds, per
route, a `Middlefiddle` wrapper around an iron `Chain` (the route handler
linked with the shared before/after middleware) and registers it on the
router under the route's method, path and id.

The iron `Chain` type and the `router` crate's `Router` are external
collaborators whose code is not part of this repository; they are modelled
from the specification. Everything else (the `Middleware` enum, the
`Middlefiddle` struct and its `Handler` impl, the `Route` struct, and the
code the macro expands to) is embedded from `src/src/lib.rs`.

Requests, responses and errors are abstract types `Req`, `Resp`, `Err`.
Iron's `IronResult<T>` is `Except Err T`; a before middleware
(`fn before(&self, &mut Request) -> IronResult<()>`) becomes
`Req → Except Err Req` (explicit state passing for the `&mut Request`),
an after middleware (`fn after(&self, &mut Request, Response) ->
IronResult<Response>`) becomes `Resp → Except Err Resp`, and a handler
(`fn handle(&self, &mut Request) -> IronResult<Response>`) becomes
`Req → Except Err Resp`.
-/

namespace IronMiddlefiddle

/-- One observable invocation of a wrapped unit during a chain run:
the `i`-th before middleware, the terminal handler, or the `i`-th after
middleware. Used to state "invoked exactly once / in declared order". -/
inductive Step where
| before (i : Nat)
| terminal
| after (i : Nat)
deriving DecidableEq, Repr

/-- Modelled from the spec: iron's `Chain` (external crate, not under
`src/`), per spec sections 3 and 4.1 — an ordered list of before
middleware, a terminal handler, and an ordered list of after middleware. -/
structure Chain (Req Resp Err : Type) where
befores : List (Req → Except Err Req)
handler : Req → Except Err Resp
afters : List (Resp → Except Err Resp)

/-- Modelled from the spec: `Chain::new(handler)` — a chain with no
middleware yet. -/
def Chain.new {Req Resp Err : Type} (h : Req → Except Err Resp) :
    Chain Req Resp Err :=
  ⟨[], h, []⟩

/-- Modelled from the spec: `Chain::link_before` appends a before
middleware, preserving declaration order. -/
def Chain.linkBefore {Req Resp Err : Type} (c : Chain Req Resp Err)
    (b : Req → Except Err Req) : Chain Req Resp Err :=
  { c with befores := c.befores ++ [b] }

/-- Modelled from the spec: `Chain::link_after` appends an after
middleware, preserving declaration order. -/
def Chain.linkAfter {Req Resp Err : Type} (c : Chain Req Resp Err)
    (a : Resp → Except Err Resp) : Chain Req Resp Err :=
  { c with afters := c.afters ++ [a] }

/-- Run the before middleware in order starting at index `i`, threading
the request; stop at the first one that halts. Returns the trace of
invocations together with the result. -/
def runBefores {Req Err : Type} (bs : List (Req → Except Err Req))
    (i : Nat) (r : Req) : List Step × Except Err Req :=
  match bs with
  | [] => ([], Except.ok r)
  | b :: rest =>
    match b r with
    | Except.ok r1 =>
      let p := runBefores rest (i + 1) r1
      (Step.before i :: p.1, p.2)
    | Except.error e => ([Step.before i], Except.error e)

/-- Run the after middleware in order starting at index `i`, threading
the response; stop at the first one that halts. Returns the trace of
invocations together with the result. -/
def runAfters {Resp Err : Type} (as : List (Resp → Except Err Resp))
    (i : Nat) (x : Resp) : List Step × Except Err Resp :=
  match as with
  | [] => ([], Except.ok x)
  | a :: rest =>
    match a x with
    | Except.ok x1 =>
      let p := runAfters rest (i + 1) x1
      (Step.after i :: p.1, p.2)
    | Except.error e => ([Step.after i], Except.error e)

/-- Modelled from the spec: invocation semantics of a composed chain
(spec sections 3, 4.1, 7), instrumented with the trace of unit
invocations. Before middleware run in declared order; the first halt
skips the terminal handler and everything after and propagates the
halting unit's error verbatim; otherwise the terminal handler runs, and
(provided it completed without early termination) the after middleware
run in declared order, a halt again propagating verbatim. -/
def Chain.handleT {Req Resp Err : Type} (c : Chain Req Resp Err)
    (r : Req) : List Step × Except Err Resp :=
  let pb := runBefores c.befores 0 r
  match pb.2 with
  | Except.error e => (pb.1, Except.error e)
  | Except.ok r1 =>
    match c.handler r1 with
    | Except.error e => (pb.1 ++ [Step.terminal], Except.error e)
    | Except.ok resp =>
      let pa := runAfters c.afters 0 resp
      (pb.1 ++ [Step.terminal] ++ pa.1, pa.2)

/-- Modelled from the spec: the result a composed chain produces for a
request (the trace forgotten). -/
def Chain.handle {Req Resp Err : Type} (c : Chain Req Resp Err)
    (r : Req) : Except Err Resp :=
  (c.handleT r).2

/-- The `Middleware` enum of `src/src/lib.rs` (lines 76-104): a tagged
before- or after-middleware, each wrapping one opaque handler
capability. -/
inductive Middleware (Req Resp Err : Type) where
| beforeMiddleware (f : Req → Except Err Req)
| afterMiddleware (f : Resp → Except Err Resp)

/-- The before middleware contained in a middleware list, in order. -/
def beforesOf {Req Resp Err : Type} (mws : List (Middleware Req Resp Err)) :
    List (Req → Except Err Req) :=
  mws.filterMap (fun m =>
    match m with
    | Middleware.beforeMiddleware f => some f
    | Middleware.afterMiddleware _ => none)

/-- The after middleware contained in a middleware list, in order. -/
def aftersOf {Req Resp Err : Type} (mws : List (Middleware Req Resp Err)) :
    List (Resp → Except Err Resp) :=
  mws.filterMap (fun m =>
    match m with
    | Middleware.beforeMiddleware _ => none
    | Middleware.afterMiddleware f => some f)

/-- The `Middlefiddle` struct of `src/src/lib.rs` (lines 106-109): a
wrapper holding the composed chain. -/
structure Middlefiddle (Req Resp Err : Type) where
chain : Chain Req Resp Err

/-- One step of the loop in `Middlefiddle::new` (lines 123-132): link a
before middleware with `link_before`, an after middleware with
`link_after`. -/
def linkOne {Req Resp Err : Type} (c : Chain Req Resp Err)
    (m : Middleware Req Resp Err) : Chain Req Resp Err :=
  match m with
  | Middleware.beforeMiddleware f => c.linkBefore f
  | Middleware.afterMiddleware f => c.linkAfter f

/-- `Middlefiddle::new` (`src/src/lib.rs` lines 120-137): start from
`Chain::new(handler)` and link each middleware in declared order. -/
def Middlefiddle.new {Req Resp Err : Type} (h : Req → Except Err Resp)
    (middleware : List (Middleware Req Resp Err)) :
    Middlefiddle Req Resp Err :=
  ⟨middleware.foldl linkOne (Chain.new h)⟩

/-- The `Handler` impl for `Middlefiddle` (`src/src/lib.rs` lines
140-144): plain delegation to `self.chain.handle(req)`. -/
def Middlefiddle.handle {Req Resp Err : Type}
    (mf : Middlefiddle Req Resp Err) (r : Req) : Except Err Resp :=
  Chain.handle mf.chain r

/-- The recognized HTTP method tags of the macro's dispatch match
(`src/src/lib.rs` lines 237-247). -/
inductive Method where
| get
| post
| put
| delete
| head
| patch
| options
| any
deriving DecidableEq, Repr

/-- One registered route entry: method, path, composed handler and
registration id. -/
structure Entry (Req Resp Err : Type) where
method : Method
path : String
handler : Middlefiddle Req Resp Err
id : String

/-- Modelled from the spec: the external `Router` capability (spec
section 6) — its observable state is its registered-route table. -/
structure Router (Req Resp Err : Type) where
entries : List (Entry Req Resp Err)

/-- A fresh router with no registered routes. -/
def Router.fresh {Req Resp Err : Type} : Router Req Resp Err := ⟨[]⟩

/-- Modelled from the spec: a registration call appends one entry to the
router's registered-route table. -/
def Router.register {Req Resp Err : Type} (rt : Router Req Resp Err)
    (m : Method) (path : String) (h : Middlefiddle Req Resp Err)
    (id : String) : Router Req Resp Err :=
  ⟨rt.entries ++ [⟨m, path, h, id⟩]⟩

/-- The `Route` struct of `src/src/lib.rs` (lines 111-117). -/
structure Route (Req Resp Err : Type) where
id : Option String
method : String
route : Option String
handler : Option (Req → Except Err Resp)

/-- One entry of the macro's `routes => { id: method "path" => handler }`
table, before the macro wraps its fields in `Some` (lines 216-223). -/
structure RouteDecl (Req Resp Err : Type) where
id : String
method : String
path : String
handler : Req → Except Err Resp

/-- The `Route` value the macro pushes for a declaration (lines
217-222): every `Option` field is constructed as `Some`. -/
def mkRoute {Req Resp Err : Type} (d : RouteDecl Req Resp Err) :
    Route Req Resp Err :=
  ⟨some d.id, d.method, some d.path, some d.handler⟩

/-- The body of the macro's per-route loop (`src/src/lib.rs` lines
225-248): take the route's fields, build the middleware chain
(`route.handler.take().unwrap()` happens before the method match), then
dispatch on the method string to the router's registration call, passing
`route_route.unwrap()` and `route_id.unwrap()`; an unrecognized method
falls through to `_ => {}`. A failed unwrap (a `None` field) is a panic,
modelled as `none`. -/
def bindRoute {Req Resp Err : Type} (router : Router Req Resp Err)
    (d : RouteDecl Req Resp Err) (mws : List (Middleware Req Resp Err)) :
    Option (Router Req Resp Err) :=
  let route := mkRoute d
  let routeId := route.id
  let routeRoute := route.route
  let routeHandler := route.handler
  match routeHandler with
  | none => none
  | some h =>
    let chain := Middlefiddle.new h mws
    match route.method with
    | "get" => do
      let p ← routeRoute
      let i ← routeId
      some (router.register Method.get p chain i)
    | "post" => do
      let p ← routeRoute
      let i ← routeId
      some (router.register Method.post p chain i)
    | "put" => do
      let p ← routeRoute
      let i ← routeId
      some (router.register Method.put p chain i)
    | "delete" => do
      let p ← routeRoute
      let i ← routeId
      some (router.register Method.delete p chain i)
    | "head" => do
      let p ← routeRoute
      let i ← routeId
      some (router.register Method.head p chain i)
    | "patch" => do
      let p ← routeRoute
      let i ← routeId
      some (router.register Method.patch p chain i)
    | "options" => do
      let p ← routeRoute
      let i ← routeId
      some (router.register Method.options p chain i)
    | "any" => do
      let p ← routeRoute
      let i ← routeId
      some (router.register Method.any p chain i)
    | _ => some router

/-- The expansion of the `middlefiddle!` macro (`src/src/lib.rs` lines
211-249): build the route table, then run the per-route loop. The
middleware vector is rebuilt from the same declarations on every
iteration (lines 226-230), which in this pure model is the same list
`mws` each time. A panic anywhere aborts the whole call (`none`). -/
def middlefiddle {Req Resp Err : Type} (router : Router Req Resp Err)
    (decls : List (RouteDecl Req Resp Err))
    (mws : List (Middleware Req Resp Err)) : Option (Router Req Resp Err) :=
  match decls with
  | [] => some router
  | d :: ds =>
    match bindRoute router d mws with
    | none => none
    | some r1 => middlefiddle r1 ds mws

/-- The method tags the macro's dispatch recognizes, as a partial map
from method strings to `Method` (mirroring the match arms of lines
237-246). -/
def recognizedMethod (s : String) : Option Method :=
  match s with
  | "get" => some Method.get
  | "post" => some Method.post
  | "put" => some Method.put
  | "delete" => some Method.delete
  | "head" => some Method.head
  | "patch" => some Method.patch
  | "options" => some Method.options
  | "any" => some Method.any
  | _ => none

/-- The entry a recognized route declaration gets registered as. -/
def entryOf {Req Resp Err : Type} (mws : List (Middleware Req Resp Err))
    (d : RouteDecl Req Resp Err) : Entry Req Resp Err :=
  ⟨(recognizedMethod d.method).getD Method.get, d.path,
    Middlefiddle.new d.handler mws, d.id⟩

/-- The methods, paths and ids a router has registered, in order. -/
def Router.registeredSet {Req Resp Err : Type}
    (rt : Router Req Resp Err) : List (Method × String × String) :=
  rt.entries.map (fun e => (e.method, e.path, e.id))

/-- The `routes => { ... }` block of the macro uses the one-or-more
repetition `$( ... ),+` (`src/src/lib.rs` lines 199-202): whether a
route table is accepted by the macro's grammar. -/
def routesPatternAccepts {Req Resp Err : Type}
    (decls : List (RouteDecl Req Resp Err)) : Bool :=
  !decls.isEmpty

/-! ## Concrete sample values (for evaluating the development) -/

/-- A sample terminal handler over `Nat`. -/
def sampleHandler : Nat → Except Nat Nat := fun r => Except.ok (r + 10)

/-- A sample passing before middleware over `Nat`. -/
def sampleBefore : Nat → Except Nat Nat := fun r => Except.ok (r + 1)

/-- A sample passing after middleware over `Nat`. -/
def sampleAfter : Nat → Except Nat Nat := fun x => Except.ok (x + 2)

/-- A sample route declaration: `lorem: get "/lorem" => sampleHandler`. -/
def sampleDecl : RouteDecl Nat Nat Nat := ⟨"lorem", "get", "/lorem", sampleHandler⟩

/-- A sample route declaration: `ipsum: post "/ipsum" => sampleHandler`. -/
def sampleDecl2 : RouteDecl Nat Nat Nat := ⟨"ipsum", "post", "/ipsum", sampleHandler⟩

/-- A sample route declaration with the unrecognized method tag
`"trace"`. -/
def sampleDeclTrace : RouteDecl Nat Nat Nat :=
  ⟨"lorem", "trace", "/lorem", sampleHandler⟩

/-- A sample middleware set: one before middleware, one after
middleware. -/
def sampleMws : List (Middleware Nat Nat Nat) :=
  [Middleware.beforeMiddleware sampleBefore,
    Middleware.afterMiddleware sampleAfter]

/-- A sample before middleware that always halts with error `5`. -/
def sampleHaltBefore : Nat → Except Nat Nat := fun _ => Except.error 5

/-- A sample middleware set whose second before middleware halts. -/
def sampleHaltMws : List (Middleware Nat Nat Nat) :=
  [Middleware.beforeMiddleware sampleBefore,
    Middleware.beforeMiddleware sampleHaltBefore]

/-- A sample before middleware that always halts with error `7`. -/
def sampleErrBefore : Nat → Except Nat Nat := fun _ => Except.error 7

/-- A sample middleware set with a single halting before middleware. -/
def sampleErrMws : List (Middleware Nat Nat Nat) :=
  [Middleware.beforeMiddleware sampleErrBefore]

/-- The entry a macro call on `sampleDecl` with `sampleMws` registers. -/
def sampleEntry : Entry Nat Nat Nat :=
  ⟨Method.get, "/lorem", Middlefiddle.new sampleHandler sampleMws, "lorem"⟩

/-- The router state after binding `sampleDecl` with `sampleMws` against
a fresh router. -/
def sampleRouter : Router Nat Nat Nat := ⟨[sampleEntry]⟩

/-! ## Shared lemmas -/

/-- If the before middleware all pass, the before trace is one
invocation per middleware, in index order. -/
theorem runBefores_ok_trace {Req Err : Type} :
    ∀ (bs : List (Req → Except Err Req)) (i : Nat) (r r1 : Req),
      (runBefores bs i r).2 = Except.ok r1 →
      (runBefores bs i r).1 = (List.range' i bs.length).map Step.before := by
  intro bs
  induction bs with
  | nil => intro i r r1 _; simp [runBefores]
  | cons b rest ih =>
    intro i r r1 h
    cases hb : b r with
    | ok r2 =>
      simp only [runBefores, hb] at h ⊢
      rw [List.length_cons, List.range'_succ, List.map_cons]
      exact congrArg _ (ih (i + 1) r2 r1 h)
    | error e => simp [runBefores, hb] at h

/-- If the after middleware all pass, the after trace is one invocation
per middleware, in index order. -/
theorem runAfters_ok_trace {Resp Err : Type} :
    ∀ (as : List (Resp → Except Err Resp)) (i : Nat) (x v : Resp),
      (runAfters as i x).2 = Except.ok v →
      (runAfters as i x).1 = (List.range' i as.length).map Step.after := by
  intro as
  induction as with
  | nil => intro i x v _; simp [runAfters]
  | cons a rest ih =>
    intro i x v h
    cases ha : a x with
    | ok x1 =>
      simp only [runAfters, ha] at h ⊢
      rw [List.length_cons, List.range'_succ, List.map_cons]
      exact congrArg _ (ih (i + 1) x1 v h)
    | error e => simp [runAfters, ha] at h

/-- Splitting a before run at a passing leading segment. -/
theorem runBefores_append_ok {Req Err : Type} :
    ∀ (xs ys : List (Req → Except Err Req)) (i : Nat) (r r1 : Req),
      (runBefores xs i r).2 = Except.ok r1 →
      runBefores (xs ++ ys) i r =
        ((runBefores xs i r).1 ++ (runBefores ys (i + xs.length) r1).1,
          (runBefores ys (i + xs.length) r1).2) := by
  intro xs
  induction xs with
  | nil =>
    intro ys i r r1 h
    simp only [runBefores] at h
    cases h
    simp [runBefores]
  | cons x rest ih =>
    intro ys i r r1 h
    cases hx : x r with
    | ok r2 =>
      simp only [runBefores, hx, List.cons_append, List.append_eq] at h ⊢
      rw [ih ys (i + 1) r2 r1 h]
      simp [Nat.add_assoc, Nat.add_comm]
    | error e => simp [runBefores, hx] at h

/-- A before run that halts in a leading segment ignores the rest. -/
theorem runBefores_append_error {Req Err : Type} :
    ∀ (xs ys : List (Req → Except Err Req)) (i : Nat) (r : Req) (e : Err),
      (runBefores xs i r).2 = Except.error e →
      runBefores (xs ++ ys) i r = runBefores xs i r := by
  intro xs
  induction xs with
  | nil => intro ys i r e h; simp [runBefores] at h
  | cons x rest ih =>
    intro ys i r e h
    cases hx : x r with
    | ok r2 =>
      simp only [runBefores, hx, List.cons_append, List.append_eq] at h ⊢
      rw [ih ys (i + 1) r2 e h]
    | error e1 => simp [runBefores, hx]

/-- A halting before run returns an error some before middleware
actually produced. -/
theorem runBefores_error_mem {Req Err : Type} :
    ∀ (bs : List (Req → Except Err Req)) (i : Nat) (r : Req) (e : Err),
      (runBefores bs i r).2 = Except.error e →
      ∃ f ∈ bs, ∃ x, f x = Except.error e := by
  intro bs
  induction bs with
  | nil => intro i r e h; simp [runBefores] at h
  | cons b rest ih =>
    intro i r e h
    cases hb : b r with
    | ok r2 =>
      simp only [runBefores, hb] at h
      obtain ⟨f, hf, x, hx⟩ := ih (i + 1) r2 e h
      exact ⟨f, List.mem_cons_of_mem _ hf, x, hx⟩
    | error e1 =>
      simp only [runBefores, hb] at h
      cases h
      exact ⟨b, List.mem_cons_self _ _, r, hb⟩

/-- A halting after run returns an error some after middleware actually
produced. -/
theorem runAfters_error_mem {Resp Err : Type} :
    ∀ (as : List (Resp → Except Err Resp)) (i : Nat) (x : Resp) (e : Err),
      (runAfters as i x).2 = Except.error e →
      ∃ f ∈ as, ∃ y, f y = Except.error e := by
  intro as
  induction as with
  | nil => intro i x e h; simp [runAfters] at h
  | cons a rest ih =>
    intro i x e h
    cases ha : a x with
    | ok x1 =>
      simp only [runAfters, ha] at h
      obtain ⟨f, hf, y, hy⟩ := ih (i + 1) x1 e h
      exact ⟨f, List.mem_cons_of_mem _ hf, y, hy⟩
    | error e1 =>
      simp only [runAfters, ha] at h
      cases h
      exact ⟨a, List.mem_cons_self _ _, x, ha⟩

/-- A successful after run returns either the untouched response (no
after middleware) or a value some after middleware actually produced. -/
theorem runAfters_ok_mem {Resp Err : Type} :
    ∀ (as : List (Resp → Except Err Resp)) (i : Nat) (x v : Resp),
      (runAfters as i x).2 = Except.ok v →
      (as = [] ∧ v = x) ∨ ∃ f ∈ as, ∃ y, f y = Except.ok v := by
  intro as
  induction as with
  | nil =>
    intro i x v h
    simp only [runAfters] at h
    cases h
    exact Or.inl ⟨rfl, rfl⟩
  | cons a rest ih =>
    intro i x v h
    cases ha : a x with
    | ok x1 =>
      simp only [runAfters, ha] at h
      cases ih (i + 1) x1 v h with
      | inl he =>
        refine Or.inr ⟨a, List.mem_cons_self _ _, x, ?_⟩
        rw [ha, he.2]
      | inr hex =>
        obtain ⟨f, hf, y, hy⟩ := hex
        exact Or.inr ⟨f, List.mem_cons_of_mem _ hf, y, hy⟩
    | error e1 => simp [runAfters, ha] at h

/-- The fold in `Middlefiddle::new` appends the before middleware to the
chain's before list and the after middleware to its after list, in
declared order. -/
theorem foldl_linkOne {Req Resp Err : Type} :
    ∀ (mws : List (Middleware Req Resp Err)) (c : Chain Req Resp Err),
      mws.foldl linkOne c =
        ⟨c.befores ++ beforesOf mws, c.handler, c.afters ++ aftersOf mws⟩ := by
  intro mws
  induction mws with
  | nil => intro c; simp [beforesOf, aftersOf]
  | cons m rest ih =>
    intro c
    cases m with
    | beforeMiddleware f =>
      simp [List.foldl_cons, linkOne, Chain.linkBefore, ih, beforesOf,
        aftersOf, List.filterMap_cons]
    | afterMiddleware f =>
      simp [List.foldl_cons, linkOne, Chain.linkAfter, ih, beforesOf,
        aftersOf, List.filterMap_cons]

/-- The chain `Middlefiddle::new` builds: the declared before middleware,
the terminal handler, the declared after middleware. -/
theorem new_chain {Req Resp Err : Type} (h : Req → Except Err Resp)
    (mws : List (Middleware Req Resp Err)) :
    (Middlefiddle.new h mws).chain = ⟨beforesOf mws, h, aftersOf mws⟩ := by
  simp [Middlefiddle.new, Chain.new, foldl_linkOne]

/-- A route declaration with a recognized method tag is registered under
exactly that method, its path and its id, with the composed chain as
handler; nothing panics. -/
theorem bindRoute_recognized {Req Resp Err : Type}
    (router : Router Req Resp Err) (d : RouteDecl Req Resp Err)
    (mws : List (Middleware Req Resp Err)) (m : Method)
    (hm : recognizedMethod d.method = some m) :
    bindRoute router d mws =
      some (router.register m d.path (Middlefiddle.new d.handler mws) d.id) := by
  obtain ⟨id0, mth, path0, h0⟩ := d
  unfold recognizedMethod at hm
  unfold bindRoute mkRoute
  dsimp only at hm ⊢
  split at hm
  · cases hm; rfl
  · cases hm; rfl
  · cases hm; rfl
  · cases hm; rfl
  · cases hm; rfl
  · cases hm; rfl
  · cases hm; rfl
  · cases hm; rfl
  · cases hm

/-- A route declaration with an unrecognized method tag falls through to
the empty match arm: the router is unchanged and nothing panics. -/
theorem bindRoute_unrecognized {Req Resp Err : Type}
    (router : Router Req Resp Err) (d : RouteDecl Req Resp Err)
    (mws : List (Middleware Req Resp Err))
    (hm : recognizedMethod d.method = none) :
    bindRoute router d mws = some router := by
  obtain ⟨id0, mth, path0, h0⟩ := d
  unfold recognizedMethod at hm
  unfold bindRoute mkRoute
  dsimp only at hm ⊢
  split at hm
  · cases hm
  · cases hm
  · cases hm
  · cases hm
  · cases hm
  · cases hm
  · cases hm
  · cases hm
  · rfl

/-- The per-route loop body never panics and either leaves the router
unchanged or appends exactly one entry built from the declaration. -/
theorem bindRoute_cases {Req Resp Err : Type}
    (router : Router Req Resp Err) (d : RouteDecl Req Resp Err)
    (mws : List (Middleware Req Resp Err)) :
    bindRoute router d mws =
      some (match recognizedMethod d.method with
        | some m =>
          router.register m d.path (Middlefiddle.new d.handler mws) d.id
        | none => router) := by
  cases hm : recognizedMethod d.method with
  | some m => rw [bindRoute_recognized router d mws m hm]
  | none => rw [bindRoute_unrecognized router d mws hm]

/-- When every declared method tag is recognized, the whole macro call
appends exactly one entry per declaration, in order, each built from its
declaration and the shared middleware. -/
theorem middlefiddle_all_recognized {Req Resp Err : Type} :
    ∀ (decls : List (RouteDecl Req Resp Err)) (router : Router Req Resp Err)
      (mws : List (Middleware Req Resp Err)),
      (∀ d ∈ decls, (recognizedMethod d.method).isSome = true) →
      middlefiddle router decls mws =
        some ⟨router.entries ++ decls.map (entryOf mws)⟩ := by
  intro decls
  induction decls with
  | nil => intro router mws _; simp [middlefiddle]
  | cons d ds ih =>
    intro router mws hrec
    have hd := hrec d (List.mem_cons_self _ _)
    obtain ⟨m, hm⟩ := Option.isSome_iff_exists.mp hd
    simp only [middlefiddle]
    rw [bindRoute_recognized router d mws m hm]
    dsimp only
    rw [ih _ mws (fun x hx => hrec x (List.mem_cons_of_mem _ hx))]
    simp [Router.register, entryOf, hm]

/-- The macro call never panics: no unwrap ever sees a `None`. -/
theorem middlefiddle_isSome {Req Resp Err : Type} :
    ∀ (decls : List (RouteDecl Req Resp Err)) (router : Router Req Resp Err)
      (mws : List (Middleware Req Resp Err)),
      (middlefiddle router decls mws).isSome = true := by
  intro decls
  induction decls with
  | nil => intro router mws; simp [middlefiddle]
  | cons d ds ih =>
    intro router mws
    simp only [middlefiddle]
    rw [bindRoute_cases]
    exact ih _ mws

/-- Every entry of the router a macro call produces is either a
pre-existing entry or carries a chain composed of exactly the shared
before and after middleware. -/
theorem middlefiddle_entries {Req Resp Err : Type} :
    ∀ (decls : List (RouteDecl Req Resp Err))
      (router r : Router Req Resp Err)
      (mws : List (Middleware Req Resp Err)),
      middlefiddle router decls mws = some r → ∀ e ∈ r.entries,
      e ∈ router.entries ∨
        (e.handler.chain.befores = beforesOf mws ∧
          e.handler.chain.afters = aftersOf mws) := by
  intro decls
  induction decls with
  | nil =>
    intro router r mws h e he
    simp only [middlefiddle, Option.some.injEq] at h
    subst h
    exact Or.inl he
  | cons d ds ih =>
    intro router r mws h e he
    simp only [middlefiddle] at h
    rw [bindRoute_cases] at h
    cases hm : recognizedMethod d.method with
    | some m =>
      rw [hm] at h
      dsimp only at h
      have := ih _ r mws h e he
      cases this with
      | inl hmem =>
        simp only [Router.register, List.mem_append, List.mem_singleton]
          at hmem
        cases hmem with
        | inl h1 => exact Or.inl h1
        | inr h2 =>
          subst h2
          exact Or.inr (by simp [new_chain])
      | inr hchain => exact Or.inr hchain
    | none =>
      rw [hm] at h
      dsimp only at h
      exact ih _ r mws h e he

/-- When the before middleware at position `k` is the first to halt, the
run invokes exactly the before middleware `i .. i+k` and returns that
middleware's error verbatim. -/
theorem runBefores_halt_trace {Req Err : Type} :
    ∀ (bs : List (Req → Except Err Req)) (k i : Nat) (r r1 : Req) (e : Err)
      (hk : k < bs.length),
      (runBefores (bs.take k) i r).2 = Except.ok r1 →
      bs.get ⟨k, hk⟩ r1 = Except.error e →
      runBefores bs i r =
        ((List.range' i (k + 1)).map Step.before, Except.error e) := by
  intro bs
  induction bs with
  | nil => intro k i r r1 e hk; simp at hk
  | cons b rest ih =>
    intro k i r r1 e hk hpass hhalt
    cases k with
    | zero =>
      simp only [List.take_zero, runBefores, Except.ok.injEq] at hpass
      subst hpass
      simp only [List.get] at hhalt
      simp [runBefores, hhalt, List.range']
    | succ k1 =>
      cases hb : b r with
      | error e1 =>
        simp only [List.take_succ_cons, runBefores, hb] at hpass
        cases hpass
      | ok r2 =>
        simp only [List.take_succ_cons, runBefores, hb] at hpass
        simp only [List.get] at hhalt
        have hk1 : k1 < rest.length := by
          simp only [List.length_cons] at hk; omega
        have := ih k1 (i + 1) r2 r1 e hk1 hpass hhalt
        simp only [runBefores, hb, this]
        simp [List.range'_succ]

/-- Every step an after run records is an after-middleware invocation. -/
theorem runAfters_steps {Resp Err : Type} :
    ∀ (as : List (Resp → Except Err Resp)) (i : Nat) (x : Resp),
      ∀ s ∈ (runAfters as i x).1, ∃ j, s = Step.after j := by
  intro as
  induction as with
  | nil => intro i x s hs; simp [runAfters] at hs
  | cons a rest ih =>
    intro i x s hs
    cases ha : a x with
    | ok x1 =>
      simp only [runAfters, ha] at hs
      rcases List.mem_cons.mp hs with h | h
      · exact ⟨i, h⟩
      · exact ih (i + 1) x1 s h
    | error e =>
      simp only [runAfters, ha] at hs
      rcases List.mem_cons.mp hs with h | h
      · exact ⟨i, h⟩
      · exact absurd h (List.not_mem_nil s)

/-- A before invocation of index `j < n` appears exactly once in the
full before trace. -/
theorem count_before_in_before_map {j n : Nat} (hj : j < n) :
    ((List.range' 0 n).map Step.before).count (Step.before j) = 1 := by
  have hinj : Function.Injective Step.before := by
    intro a b hab
    injection hab
  refine List.count_eq_one_of_mem ((List.nodup_range' 0 n).map hinj) ?_
  refine List.mem_map_of_mem _ ?_
  rw [List.mem_range'_1]
  omega

/-- The terminal handler never appears in a before trace. -/
theorem count_terminal_in_before_map (n : Nat) :
    ((List.range' 0 n).map Step.before).count Step.terminal = 0 := by
  rw [List.count_eq_zero]
  simp

/-- No before invocation appears in an after run's trace. -/
theorem count_before_in_after_trace {Resp Err : Type}
    (as : List (Resp → Except Err Resp)) (i : Nat) (x : Resp) (j : Nat) :
    ((runAfters as i x).1).count (Step.before j) = 0 := by
  rw [List.count_eq_zero]
  intro hmem
  obtain ⟨k, hk⟩ := runAfters_steps as i x _ hmem
  exact Step.noConfusion hk

/-- The terminal handler never appears in an after run's trace. -/
theorem count_terminal_in_after_trace {Resp Err : Type}
    (as : List (Resp → Except Err Resp)) (i : Nat) (x : Resp) :
    ((runAfters as i x).1).count Step.terminal = 0 := by
  rw [List.count_eq_zero]
  intro hmem
  obtain ⟨k, hk⟩ := runAfters_steps as i x _ hmem
  exact Step.noConfusion hk

/-! ## Claims -/

/-- C1: for every route table with N ≥ 1 declared routes whose method
tags are all recognized, and every middleware set, binding against a
fresh router completes and leaves the router with exactly N registered
entries, one per declared route in order, each under that route's
declared method, path and id (`entryOf` records exactly those fields,
with the composed chain as handler). -/
theorem C1_bind_registers_every_route {Req Resp Err : Type}
    (decls : List (RouteDecl Req Resp Err))
    (mws : List (Middleware Req Resp Err))
    (_hne : decls ≠ [])
    (hrec : ∀ d ∈ decls, (recognizedMethod d.method).isSome = true) :
    middlefiddle Router.fresh decls mws = some ⟨decls.map (entryOf mws)⟩ ∧
    (decls.map (entryOf mws)).length = decls.length := by
  refine ⟨?_, List.length_map _ _⟩
  rw [middlefiddle_all_recognized decls Router.fresh mws hrec]
  rfl

/-- Witness for C1 at a concrete two-route table. -/
theorem C1_witness :
    ([sampleDecl, sampleDecl2] ≠ ([] : List (RouteDecl Nat Nat Nat))) ∧
    (∀ d ∈ [sampleDecl, sampleDecl2],
      (recognizedMethod d.method).isSome = true) ∧
    (middlefiddle Router.fresh [sampleDecl, sampleDecl2] sampleMws =
        some ⟨[sampleDecl, sampleDecl2].map (entryOf sampleMws)⟩ ∧
      ([sampleDecl, sampleDecl2].map (entryOf sampleMws)).length =
        [sampleDecl, sampleDecl2].length) :=
  by
  have hrec : ∀ d ∈ [sampleDecl, sampleDecl2],
      (recognizedMethod d.method).isSome = true := by
    intro d hd
    rcases List.mem_cons.mp hd with h | h
    · subst h; rfl
    · rcases List.mem_cons.mp h with h2 | h2
      · subst h2; rfl
      · exact absurd h2 (List.not_mem_nil d)
  exact ⟨by simp, hrec,
    C1_bind_registers_every_route [sampleDecl, sampleDecl2] sampleMws
      (by simp) hrec⟩

/-- C3: a route declaration whose method tag is outside the recognized
set falls through the dispatch match's empty default arm: the router is
unchanged (no registration), and nothing panics or errors — both for
the loop body and for a whole macro call on that single route. -/
theorem C3_unrecognized_method_skipped {Req Resp Err : Type}
    (router : Router Req Resp Err) (d : RouteDecl Req Resp Err)
    (mws : List (Middleware Req Resp Err))
    (hm : recognizedMethod d.method = none) :
    bindRoute router d mws = some router ∧
    middlefiddle router [d] mws = some router := by
  refine ⟨bindRoute_unrecognized router d mws hm, ?_⟩
  simp only [middlefiddle]
  rw [bindRoute_unrecognized router d mws hm]

/-- Witness for C3 at the unrecognized tag `"trace"`. -/
theorem C3_witness :
    recognizedMethod sampleDeclTrace.method = none ∧
    (bindRoute Router.fresh sampleDeclTrace sampleMws =
        some Router.fresh ∧
      middlefiddle Router.fresh [sampleDeclTrace] sampleMws =
        some Router.fresh) :=
  ⟨by decide,
    C3_unrecognized_method_skipped Router.fresh sampleDeclTrace sampleMws
      (by decide)⟩

/-- C8: the macro's `routes` block uses the one-or-more repetition, so
an empty route table is rejected by the macro grammar while any
non-empty table is accepted: an accepted call can never be one that had
nothing to register. -/
theorem C8_empty_route_table_rejected {Req Resp Err : Type} :
    routesPatternAccepts ([] : List (RouteDecl Req Resp Err)) = false ∧
    ∀ decls : List (RouteDecl Req Resp Err),
      decls ≠ [] → routesPatternAccepts decls = true := by
  refine ⟨rfl, ?_⟩
  intro decls h
  cases decls with
  | nil => exact absurd rfl h
  | cons d ds => rfl

/-- Witness for C8 at a concrete one-route table. -/
theorem C8_witness :
    ([sampleDecl] ≠ ([] : List (RouteDecl Nat Nat Nat))) ∧
    routesPatternAccepts [sampleDecl] = true :=
  ⟨by simp,
    (@C8_empty_route_table_rejected Nat Nat Nat).2 [sampleDecl]
      (by simp)⟩

/-- C9: the `Handler` impl for `Middlefiddle` is pure delegation — for
every request, invoking the wrapper produces exactly the result of
invoking the underlying chain directly. -/
theorem C9_wrapper_is_pure_delegation {Req Resp Err : Type}
    (mf : Middlefiddle Req Resp Err) (r : Req) :
    Middlefiddle.handle mf r = Chain.handle mf.chain r := rfl

/-- C10: in the code the macro generates per route, every `Option` field
is constructed as `Some` (by `mkRoute`) and the subsequent unwraps never
panic: a whole macro call always completes (`isSome`, where `none`
models a panic). -/
theorem C10_unwraps_never_panic {Req Resp Err : Type}
    (router : Router Req Resp Err) (decls : List (RouteDecl Req Resp Err))
    (mws : List (Middleware Req Resp Err)) :
    (∀ d : RouteDecl Req Resp Err, (mkRoute d).id = some d.id ∧
      (mkRoute d).route = some d.path ∧
      (mkRoute d).handler = some d.handler) ∧
    (middlefiddle router decls mws).isSome = true :=
  ⟨fun _ => ⟨rfl, rfl, rfl⟩, middlefiddle_isSome decls router mws⟩

/-- C2 counterexample: a composed chain with no before middleware (so
every request trivially passes all before middleware), a terminal
handler that fails, and one after middleware. The claim demands the
after middleware run exactly once, but it is never invoked. -/
theorem C2_counterexample :
    (runBefores (beforesOf [Middleware.afterMiddleware
        (fun x : Nat => (Except.ok x : Except Nat Nat))]) 0 0).2 =
      Except.ok 0 ∧
    ¬ (((Middlefiddle.new (fun _ : Nat => (Except.error 0 : Except Nat Nat))
        [Middleware.afterMiddleware
          (fun x : Nat => (Except.ok x : Except Nat Nat))]).chain.handleT
        0).1.count (Step.after 0) = 1) :=
  ⟨rfl, by decide⟩

/-- C2 (amended): on a request that passes every before middleware, the
chain runs each before middleware in declared order and then the
terminal handler exactly once, whatever the terminal handler returns
(the trace is the full before trace, then the terminal step, then only
after steps; the terminal step occurs once and each before exactly
once); and provided the terminal handler and every after middleware
also complete successfully, each after middleware then runs in declared
order exactly once. -/
theorem C2_success_invocation_order {Req Resp Err : Type}
    (h : Req → Except Err Resp) (mws : List (Middleware Req Resp Err))
    (r r1 : Req)
    (hb : (runBefores (beforesOf mws) 0 r).2 = Except.ok r1) :
    (∃ t, ((Middlefiddle.new h mws).chain.handleT r).1 =
        (List.range' 0 (beforesOf mws).length).map Step.before ++
          [Step.terminal] ++ t ∧
      ∀ s ∈ t, ∃ i, s = Step.after i) ∧
    ((Middlefiddle.new h mws).chain.handleT r).1.count Step.terminal
      = 1 ∧
    (∀ j, j < (beforesOf mws).length →
      ((Middlefiddle.new h mws).chain.handleT r).1.count (Step.before j)
        = 1) ∧
    (∀ resp v, h r1 = Except.ok resp →
      (runAfters (aftersOf mws) 0 resp).2 = Except.ok v →
      ((Middlefiddle.new h mws).chain.handleT r).1 =
        (List.range' 0 (beforesOf mws).length).map Step.before ++
          [Step.terminal] ++
          (List.range' 0 (aftersOf mws).length).map Step.after) := by
  have hbt := runBefores_ok_trace (beforesOf mws) 0 r r1 hb
  rw [new_chain]
  cases hh : h r1 with
  | error e =>
    have hT : Chain.handleT ⟨beforesOf mws, h, aftersOf mws⟩ r =
        ((List.range' 0 (beforesOf mws).length).map Step.before ++
          [Step.terminal], Except.error e) := by
      dsimp only [Chain.handleT]
      rw [hb]
      dsimp only
      rw [hh]
      dsimp only
      rw [hbt]
    refine ⟨⟨[], ?_, ?_⟩, ?_, ?_, ?_⟩
    · rw [hT]
      simp
    · intro s hs
      exact absurd hs (List.not_mem_nil s)
    · rw [hT]
      dsimp only
      rw [List.count_append, count_terminal_in_before_map]
      rfl
    · intro j hj
      rw [hT]
      dsimp only
      rw [List.count_append, count_before_in_before_map hj]
      rfl
    · intro resp v hresp _
      exact Except.noConfusion hresp
  | ok resp0 =>
    have hT : Chain.handleT ⟨beforesOf mws, h, aftersOf mws⟩ r =
        ((List.range' 0 (beforesOf mws).length).map Step.before ++
          [Step.terminal] ++ (runAfters (aftersOf mws) 0 resp0).1,
          (runAfters (aftersOf mws) 0 resp0).2) := by
      dsimp only [Chain.handleT]
      rw [hb]
      dsimp only
      rw [hh]
      dsimp only
      rw [hbt]
    refine ⟨⟨(runAfters (aftersOf mws) 0 resp0).1, ?_, ?_⟩, ?_, ?_, ?_⟩
    · rw [hT]
    · exact runAfters_steps (aftersOf mws) 0 resp0
    · rw [hT]
      dsimp only
      rw [List.count_append, List.count_append,
        count_terminal_in_before_map, count_terminal_in_after_trace]
      rfl
    · intro j hj
      rw [hT]
      dsimp only
      rw [List.count_append, List.count_append,
        count_before_in_before_map hj, count_before_in_after_trace]
      rfl
    · intro resp v hresp ha
      have hrr : resp0 = resp := by
        injection hresp
      subst hrr
      rw [hT]
      dsimp only
      rw [runAfters_ok_trace (aftersOf mws) 0 resp0 v ha]

/-- Witness for C2 (amended) at a concrete fully passing chain. -/
theorem C2_witness :
    (runBefores (beforesOf sampleMws) 0 0).2 = Except.ok 1 ∧
    ((Middlefiddle.new sampleHandler sampleMws).chain.handleT 0).1.count
      Step.terminal = 1 ∧
    ((Middlefiddle.new sampleHandler sampleMws).chain.handleT 0).1 =
      (List.range' 0 (beforesOf sampleMws).length).map Step.before ++
        [Step.terminal] ++
        (List.range' 0 (aftersOf sampleMws).length).map Step.after :=
  ⟨rfl,
    (C2_success_invocation_order sampleHandler sampleMws 0 1 rfl).2.1,
    (C2_success_invocation_order sampleHandler sampleMws 0 1 rfl).2.2.2
      11 13 rfl rfl⟩

/-- C4: if the before middleware at position k is the first to halt, the
chain invoked exactly the before middleware 0..k (so each of 0..k-1 and
k itself exactly once, in declared order), never the terminal handler,
no before middleware past k, no after middleware, and it returns the
halting error. -/
theorem C4_before_halt_short_circuits {Req Resp Err : Type}
    (h : Req → Except Err Resp) (mws : List (Middleware Req Resp Err))
    (r : Req) (k : Nat) (hk : k < (beforesOf mws).length) (r1 : Req)
    (e : Err)
    (hpass : (runBefores ((beforesOf mws).take k) 0 r).2 = Except.ok r1)
    (hhalt : (beforesOf mws).get ⟨k, hk⟩ r1 = Except.error e) :
    ((Middlefiddle.new h mws).chain.handleT r).1 =
      (List.range' 0 (k + 1)).map Step.before ∧
    (∀ j, j ≤ k →
      ((Middlefiddle.new h mws).chain.handleT r).1.count (Step.before j)
        = 1) ∧
    Step.terminal ∉ ((Middlefiddle.new h mws).chain.handleT r).1 ∧
    (∀ j, k < j →
      Step.before j ∉ ((Middlefiddle.new h mws).chain.handleT r).1) ∧
    (∀ i, Step.after i ∉ ((Middlefiddle.new h mws).chain.handleT r).1) ∧
    ((Middlefiddle.new h mws).chain.handleT r).2 = Except.error e := by
  have hrun := runBefores_halt_trace (beforesOf mws) k 0 r r1 e hk
    hpass hhalt
  have hinj : Function.Injective Step.before := by
    intro a b hab
    injection hab
  have hT : (Middlefiddle.new h mws).chain.handleT r =
      ((List.range' 0 (k + 1)).map Step.before, Except.error e) := by
    rw [new_chain]
    dsimp only [Chain.handleT]
    rw [hrun]
  refine ⟨by rw [hT], ?_, ?_, ?_, ?_, by rw [hT]⟩
  · intro j hj
    rw [hT]
    refine List.count_eq_one_of_mem
      ((List.nodup_range' 0 (k + 1)).map hinj) ?_
    refine List.mem_map_of_mem _ ?_
    rw [List.mem_range'_1]
    omega
  · rw [hT]
    simp
  · intro j hj
    rw [hT]
    simp only [List.mem_map, List.mem_range'_1]
    rintro ⟨a, ⟨_, ha⟩, hae⟩
    have : a = j := hinj hae
    omega
  · intro i
    rw [hT]
    simp

/-- Witness for C4 at a concrete chain whose second before middleware
halts with error 5. -/
theorem C4_witness :
    (runBefores ((beforesOf sampleHaltMws).take 1) 0 0).2 = Except.ok 1 ∧
    ((Middlefiddle.new sampleHandler sampleHaltMws).chain.handleT 0).1 =
      (List.range' 0 2).map Step.before ∧
    Step.terminal ∉
      ((Middlefiddle.new sampleHandler sampleHaltMws).chain.handleT 0).1 ∧
    ((Middlefiddle.new sampleHandler sampleHaltMws).chain.handleT 0).2 =
      Except.error 5 :=
  ⟨rfl,
    (C4_before_halt_short_circuits sampleHandler sampleHaltMws 0 1
      (by decide) 1 5 rfl rfl).1,
    (C4_before_halt_short_circuits sampleHandler sampleHaltMws 0 1
      (by decide) 1 5 rfl rfl).2.2.1,
    (C4_before_halt_short_circuits sampleHandler sampleHaltMws 0 1
      (by decide) 1 5 rfl rfl).2.2.2.2.2⟩

/-- C5: the chain introduces no error kinds of its own — an error result
is, verbatim, an error some wrapped before middleware, the terminal
handler, or some wrapped after middleware produced, and a success result
is, verbatim, a value the terminal handler or some after middleware
produced. -/
theorem C5_results_propagated_verbatim {Req Resp Err : Type}
    (h : Req → Except Err Resp) (mws : List (Middleware Req Resp Err))
    (r : Req) :
    (∀ e : Err,
      Chain.handle (Middlefiddle.new h mws).chain r = Except.error e →
      (∃ f ∈ beforesOf mws, ∃ x, f x = Except.error e) ∨
      (∃ x, h x = Except.error e) ∨
      (∃ f ∈ aftersOf mws, ∃ y, f y = Except.error e)) ∧
    (∀ v : Resp,
      Chain.handle (Middlefiddle.new h mws).chain r = Except.ok v →
      (∃ x, h x = Except.ok v) ∨
      (∃ f ∈ aftersOf mws, ∃ y, f y = Except.ok v)) := by
  rw [new_chain]
  constructor
  · intro e he
    dsimp only [Chain.handle, Chain.handleT] at he
    cases hbr : (runBefores (beforesOf mws) 0 r).2 with
    | error e1 =>
      rw [hbr] at he
      dsimp only at he
      injection he with hee
      rw [hee] at hbr
      exact Or.inl (runBefores_error_mem (beforesOf mws) 0 r e hbr)
    | ok r1 =>
      rw [hbr] at he
      dsimp only at he
      cases hh : h r1 with
      | error e1 =>
        rw [hh] at he
        dsimp only at he
        exact Or.inr (Or.inl ⟨r1, hh.trans he⟩)
      | ok resp =>
        rw [hh] at he
        dsimp only at he
        exact Or.inr (Or.inr
          (runAfters_error_mem (aftersOf mws) 0 resp e he))
  · intro v hv
    dsimp only [Chain.handle, Chain.handleT] at hv
    cases hbr : (runBefores (beforesOf mws) 0 r).2 with
    | error e1 =>
      rw [hbr] at hv
      dsimp only at hv
      exact Except.noConfusion hv
    | ok r1 =>
      rw [hbr] at hv
      dsimp only at hv
      cases hh : h r1 with
      | error e1 =>
        rw [hh] at hv
        dsimp only at hv
        exact Except.noConfusion hv
      | ok resp =>
        rw [hh] at hv
        dsimp only at hv
        cases runAfters_ok_mem (aftersOf mws) 0 resp v hv with
        | inl hni => exact Or.inl ⟨r1, by rw [hh, hni.2]⟩
        | inr hex => exact Or.inr hex

/-- Witness for C5 at a concrete chain whose single before middleware
halts with error 7: the chain's result is that exact error. -/
theorem C5_witness :
    Chain.handle (Middlefiddle.new sampleHandler sampleErrMws).chain 0 =
      Except.error 7 ∧
    ((∃ f ∈ beforesOf sampleErrMws, ∃ x, f x = Except.error 7) ∨
      (∃ x, sampleHandler x = Except.error 7) ∨
      (∃ f ∈ aftersOf sampleErrMws, ∃ y, f y = Except.error 7)) :=
  ⟨rfl,
    (C5_results_propagated_verbatim sampleHandler sampleErrMws 0).1 7 rfl⟩

/-- C6: binding the same route table with the same middleware set
against two independent fresh routers yields identical registered-route
sets (same methods, paths and ids, in the same order). -/
theorem C6_binding_deterministic {Req Resp Err : Type}
    (decls : List (RouteDecl Req Resp Err))
    (mws : List (Middleware Req Resp Err)) (r1 r2 : Router Req Resp Err)
    (h1 : r1.entries = []) (h2 : r2.entries = []) :
    Option.map Router.registeredSet (middlefiddle r1 decls mws) =
      Option.map Router.registeredSet (middlefiddle r2 decls mws) := by
  obtain ⟨es1⟩ := r1
  obtain ⟨es2⟩ := r2
  dsimp only at h1 h2
  subst h1
  subst h2
  rfl

/-- Witness for C6 at a concrete table against two fresh routers. -/
theorem C6_witness :
    (Router.fresh : Router Nat Nat Nat).entries = [] ∧
    Option.map Router.registeredSet
        (middlefiddle Router.fresh [sampleDecl, sampleDecl2] sampleMws) =
      Option.map Router.registeredSet
        (middlefiddle Router.fresh [sampleDecl, sampleDecl2] sampleMws) :=
  ⟨rfl,
    C6_binding_deterministic [sampleDecl, sampleDecl2] sampleMws
      Router.fresh Router.fresh rfl rfl⟩

/-- C7: within one macro call, every registered route gets the same
shared middleware set, in the same order: any two entries the call
registered carry chains with identical before lists and identical after
lists. -/
theorem C7_same_middleware_every_route {Req Resp Err : Type}
    (decls : List (RouteDecl Req Resp Err))
    (mws : List (Middleware Req Resp Err)) (r : Router Req Resp Err)
    (hr : middlefiddle Router.fresh decls mws = some r)
    (e1 : Entry Req Resp Err) (he1 : e1 ∈ r.entries)
    (e2 : Entry Req Resp Err) (he2 : e2 ∈ r.entries) :
    e1.handler.chain.befores = e2.handler.chain.befores ∧
      e1.handler.chain.afters = e2.handler.chain.afters := by
  have H1 := middlefiddle_entries decls Router.fresh r mws hr e1 he1
  have H2 := middlefiddle_entries decls Router.fresh r mws hr e2 he2
  rcases H1 with H1 | H1
  · exact absurd H1 (List.not_mem_nil e1)
  rcases H2 with H2 | H2
  · exact absurd H2 (List.not_mem_nil e2)
  exact ⟨H1.1.trans H2.1.symm, H1.2.trans H2.2.symm⟩

/-- Witness for C7 at a concrete one-route call. -/
theorem C7_witness :
    middlefiddle Router.fresh [sampleDecl] sampleMws = some sampleRouter ∧
    sampleEntry ∈ sampleRouter.entries ∧
    (sampleEntry.handler.chain.befores =
        sampleEntry.handler.chain.befores ∧
      sampleEntry.handler.chain.afters =
        sampleEntry.handler.chain.afters) :=
  ⟨rfl, List.mem_cons_self _ _,
    C7_same_middleware_every_route [sampleDecl] sampleMws sampleRouter
      rfl sampleEntry (List.mem_cons_self _ _)
      sampleEntry (List.mem_cons_self _ _)⟩

end IronMiddlefiddle
